import Mathlib

/-!
Verification development for the RePort-FEMU firmware extractor
(`extractor.py` and `binwalkInterface.py`).

The Python sources are shallowly embedded below.  Pure string processing is
translated to executable functions over `List Char` (Python `in` on strings is
substring containment, `str.split` keeps empty pieces, `int(s, 16)` is a
tolerant hex parser).  The stateful `ExtractionItem.extract` control flow is
embedded as pure functions taking the shared `visited` set and oracles for the
effectful collaborators (the binwalk scanner, the filesystem, child
extractions); machine-level details that no claim depends on (database access,
logging) are omitted.
-/

set_option autoImplicit false

/-! ### String primitives

Python's `pat in s` (substring test) and `s.split(sep)` translated to
executable functions on character lists. -/

/-- Bool-valued test that `pat` is a prefix of `s` (character lists). -/
def isPrefixChars : List Char → List Char → Bool
  | [], _ => true
  | _ :: _, [] => false
  | a :: as, b :: bs => a == b && isPrefixChars as bs

/-- Bool-valued substring containment, i.e. Python `pat in s`. -/
def isInfixChars (pat : List Char) : List Char → Bool
  | [] => isPrefixChars pat []
  | s@(_ :: rest) => isPrefixChars pat s || isInfixChars pat rest

/-- Python `pat in s` on `String`s. -/
def strContains (s pat : String) : Bool := isInfixChars pat.toList s.toList

/-- Python `s.split(c)`: split on every occurrence of `c`, keeping empty
pieces; the empty string yields `[[]]`. -/
def splitOnChar (c : Char) : List Char → List (List Char)
  | [] => [[]]
  | a :: as =>
    let r := splitOnChar c as
    if a == c then [] :: r
    else
      match r with
      | [] => [[a]]
      | h :: t => (a :: h) :: t

/-- The digit characters of a fragment, in order
(Python `[i for i in stmt if i.isdigit()]`). -/
def digitsOf (cs : List Char) : List Char := cs.filter Char.isDigit

/-- Decimal value of a list of digit characters. -/
def decValue (cs : List Char) : Nat :=
  cs.foldl (fun a c => 10 * a + (c.toNat - '0'.toNat)) 0

/-- Python `int(''.join(i for i in stmt if i.isdigit()), 10)`: collect the
digits of the fragment; an empty digit string raises `ValueError`. -/
def parseDecDigits (cs : List Char) : Except Unit Nat :=
  match digitsOf cs with
  | [] => Except.error ()
  | ds => Except.ok (decValue ds)

/-- Value of a single hexadecimal digit character. -/
def hexDigitVal (c : Char) : Option Nat :=
  if '0' ≤ c ∧ c ≤ '9' then some (c.toNat - '0'.toNat)
  else if 'a' ≤ c ∧ c ≤ 'f' then some (c.toNat - 'a'.toNat + 10)
  else if 'A' ≤ c ∧ c ≤ 'F' then some (c.toNat - 'A'.toNat + 10)
  else none

/-- Value of a non-empty list of hexadecimal digit characters. -/
def hexDigitsVal (cs : List Char) : Option Nat :=
  if cs.isEmpty then none
  else
    cs.foldl
      (fun acc c =>
        match acc, hexDigitVal c with
        | some a, some d => some (16 * a + d)
        | _, _ => none)
      (some 0)

/-- Strip leading and trailing whitespace. -/
def trimChars (cs : List Char) : List Char :=
  ((cs.dropWhile Char.isWhitespace).reverse.dropWhile Char.isWhitespace).reverse

/-- Python `int(s, 16)`: strip whitespace, optional sign, optional `0x`/`0X`
prefix, then hexadecimal digits; anything else raises `ValueError` (`none`). -/
def parseHexInt (s : List Char) : Option Int :=
  let t := trimChars s
  let signed : Int × List Char :=
    match t with
    | '-' :: rest => (-1, rest)
    | '+' :: rest => (1, rest)
    | _ => (1, t)
  let body : List Char :=
    match signed.2 with
    | '0' :: 'x' :: rest => rest
    | '0' :: 'X' :: rest => rest
    | _ => signed.2
  (hexDigitsVal body).map (fun n => signed.1 * (n : Int))

/-! ### Data model: `ExtractionItem` state and result records

From `extractor.py`: an item holds `depth`, `checksum`, `tag`, the
`terminate` flag, the `status` pair `(kernel_done, rootfs_done)` and the
output prefix `output = output_dir/tag` (or `None`).  `extract()` returns a
dict with keys `status`, `tag`, `kernelDone`, `rootfsDone`, `kernelPath`,
`rootfsPath`. -/

/-- Recursion breadth bound (`ExtractionItem.RECURSION_BREADTH`). -/
def RECURSION_BREADTH : Nat := 5

/-- Recursion depth bound (`ExtractionItem.RECURSION_DEPTH`). -/
def RECURSION_DEPTH : Nat := 3

/-- The mutable per-item state of `ExtractionItem`. -/
structure ExtractionItem where
  depth : Nat
  checksum : String
  tag : String
  terminate : Bool
  status : Bool × Bool
  output : Option String
deriving DecidableEq, Repr

/-- The result dict returned by `ExtractionItem.extract`. -/
structure ExtractResult where
  status : Bool
  tag : String
  kernelDone : Bool
  rootfsDone : Bool
  kernelPath : Option String
  rootfsPath : Option String
deriving DecidableEq, Repr

/-- `ExtractionItem.get_kernel_path`: `output + ".kernel"` when an output
prefix is configured. -/
def get_kernel_path (it : ExtractionItem) : Option String :=
  it.output.map (fun o => o ++ ".kernel")

/-- `ExtractionItem.get_rootfs_path`: `output + ".tar.gz"` when an output
prefix is configured. -/
def get_rootfs_path (it : ExtractionItem) : Option String :=
  it.output.map (fun o => o ++ ".tar.gz")

/-- `ExtractionItem.get_status`: true iff early termination was signalled or
both status flags hold. -/
def get_status (it : ExtractionItem) : Bool :=
  it.terminate || (it.status.1 && it.status.2)

/-- The result dict `extract` builds: given the `status` value returned, the
other fields are read off the current item. -/
def mkResult (it : ExtractionItem) (st : Bool) : ExtractResult :=
  ⟨st, it.tag, it.status.1, it.status.2, get_kernel_path it, get_rootfs_path it⟩

/-- One component of `ExtractionItem.update_status`:
`done = isfile(path) if do_flag and output else not do_flag`. -/
def done_flag (doFlag : Bool) (isfile : String → Bool) (path : Option String) : Bool :=
  match path with
  | some p => if doFlag then isfile p else !doFlag
  | none => !doFlag

/-- `ExtractionItem.update_status`: recompute both status flags from the
output files on disk (`isfile` is the filesystem oracle). -/
def update_status (doK doR : Bool) (isfile : String → Bool)
    (it : ExtractionItem) : ExtractionItem :=
  { it with status :=
      (done_flag doK isfile (get_kernel_path it),
       done_flag doR isfile (get_rootfs_path it)) }

/-- `ExtractionItem.__init__`: a fresh item starts with `terminate = False`
and `status = (False, False)`, then calls `update_status`. -/
def initItem (doK doR : Bool) (isfile : String → Bool) (depth : Nat)
    (checksum tag : String) (output : Option String) : ExtractionItem :=
  update_status doK doR isfile ⟨depth, checksum, tag, false, (false, false), output⟩

/-! ### The entry guards of `ExtractionItem.extract`

`extract` checks, in order: completed status, recursion depth, the shared
visited set (inserting the checksum under the lock when absent), and the
magic blacklist; only then does it create a temp directory and run the
analysis cascade.  The cascade itself (six analyses plus the exception
handler) is abstracted as an oracle that receives the visited set as updated
by the guards and reports its result record, its final visited set, and how
many scanner invocations it performed. -/

/-- Which point of `extract` decided the call. -/
inductive GuardOutcome where
  | complete
  | depthExceeded
  | visitedHit
  | blacklisted
  | cascade
deriving DecidableEq, Repr

/-- Observable effect of one `extract` call: the returned record, the visited
set afterwards, the number of scanner invocations, and the deciding guard. -/
structure RunStep where
  result : ExtractResult
  visited : List String
  scans : Nat
  outcome : GuardOutcome
deriving Repr

/-- The analysis cascade, abstracted: from the visited set it receives, it
produces a result record, the visited set after all child extractions, and
the number of scanner invocations it performed. -/
def CascadeOracle : Type := List String → ExtractResult × List String × Nat

/-- A cascade oracle never removes checksums from the visited set (children
only ever insert). -/
def CascadeMono (o : CascadeOracle) : Prop :=
  ∀ v c, c ∈ v → c ∈ (o v).2.1

/-- `ExtractionItem.extract`, control-flow model.  Guards in source order:
completed status, `depth > RECURSION_DEPTH`, `checksum in visited` (inserting
when absent, under the lock), blacklist; otherwise the cascade runs on the
updated visited set. -/
def extract_run (it : ExtractionItem) (visited : List String)
    (blacklisted : Bool) (cascade : CascadeOracle) : RunStep :=
  if get_status it then
    ⟨mkResult it true, visited, 0, GuardOutcome.complete⟩
  else if RECURSION_DEPTH < it.depth then
    ⟨mkResult it (get_status it), visited, 0, GuardOutcome.depthExceeded⟩
  else if it.checksum ∈ visited then
    ⟨mkResult it (get_status it), visited, 0, GuardOutcome.visitedHit⟩
  else
    let v' := it.checksum :: visited
    if blacklisted then
      ⟨mkResult it (get_status it), v', 0, GuardOutcome.blacklisted⟩
    else
      let c := cascade v'
      ⟨c.1, c.2.1, c.2.2, GuardOutcome.cascade⟩

/-- One scheduled `extract` call of a run: the item together with its
blacklist verdict and its cascade behaviour. -/
structure ScheduledItem where
  item : ExtractionItem
  blacklisted : Bool
  cascade : CascadeOracle

/-- A run: the scheduled `extract` calls in the order the lock serialises
them, threading the shared visited set.  Returns the steps and the final
visited set. -/
def runAll : List ScheduledItem → List String → List RunStep × List String
  | [], v => ([], v)
  | s :: rest, v =>
    let step := extract_run s.item v s.blacklisted s.cascade
    let r := runAll rest step.visited
    (step :: r.1, r.2)

/-! ### The recursive sub-procedure (`ExtractionItem._check_recursive`)

When an archive/compressed extraction does not directly contain a rootfs,
the code walks the scanner's output directory with a single counter
(`count = 0` before `os.walk`): each visited file becomes a child
`ExtractionItem` at `depth + 1` with the parent tag; once
`count > RECURSION_BREADTH` the item sets `terminate := True` and returns
True; if a child reports success and `update_status` then holds, it returns
True.  The walk below is over the already-ordered file sequence; the child
and parent-status behaviours are oracles. -/

/-- A child `ExtractionItem` spawned by `_check_recursive`. -/
structure ChildSpawn where
  file : String
  depth : Nat
  tag : String
deriving DecidableEq, Repr

/-- Result of the per-file loop of `_check_recursive`: the children spawned,
the value the loop returned early (if it did), and the item's `terminate`
flag after the loop. -/
structure RecWalk where
  spawned : List ChildSpawn
  ret : Option Bool
  terminate : Bool
deriving DecidableEq, Repr

/-- The inner loop of `_check_recursive` over the walked files: `childOk f`
is `new_item.extract()["status"]` for the child made from `f`, and `updSt f`
is the value of `self.update_status()` queried right after that child.
On `count > RECURSION_BREADTH` the loop does `terminate := True` and
returns True; a completing child also returns True; otherwise the loop
spawns the child and increments `count`. -/
def visitFiles (depth : Nat) (tag : String) (childOk updSt : String → Bool) :
    List String → Nat → RecWalk
  | [], _ => ⟨[], none, false⟩
  | f :: rest, count =>
    if RECURSION_BREADTH < count then ⟨[], some true, true⟩
    else
      let child : ChildSpawn := ⟨f, depth + 1, tag⟩
      if childOk f && updSt f then ⟨[child], some true, false⟩
      else
        let r := visitFiles depth tag childOk updSt rest (count + 1)
        ⟨child :: r.spawned, r.ret, r.terminate⟩

/-- What `extract` returns right after an analysis reported True and
`update_status` ran: when `get_status` now holds it returns the success
record built from the updated item. -/
def analysisReturn (it : ExtractionItem) : Option ExtractResult :=
  if get_status it then some (mkResult it true) else none

/-! ### Rootfs detection (`Extractor.io_find_rootfs`)

The filesystem is modelled as a tree; `os.listdir` order is the list order.
`io_find_rootfs` first walks into single-child directory chains, counts the
canonical UNIX directories among the immediate children, and on a miss with
`recurse=True` tries each immediate subdirectory once with `recurse=False`. -/

/-- A directory tree: `os.listdir` of a directory is the name order of its
children list. -/
inductive FSNode where
  | file : FSNode
  | dir : List (String × FSNode) → FSNode

/-- `os.path.isdir`. -/
def FSNode.isDir : FSNode → Bool
  | FSNode.dir _ => true
  | FSNode.file => false

/-- `os.listdir` (empty for regular files, which the code never lists). -/
def FSNode.childrenOf : FSNode → List (String × FSNode)
  | FSNode.dir cs => cs
  | FSNode.file => []

-- Height measure used only for termination of `collapseWithPath`.
mutual

def FSNode.ht : FSNode → Nat
  | FSNode.file => 0
  | FSNode.dir cs => 1 + FSNode.htL cs

def FSNode.htL : List (String × FSNode) → Nat
  | [] => 0
  | (_, c) :: rest => max (FSNode.ht c) (FSNode.htL rest)

end

/-- The `while` loop of `io_find_rootfs`: descend while the directory has
exactly one entry and that entry is a directory, accumulating the path. -/
def collapseWithPath (t : FSNode) (p : List String) : FSNode × List String :=
  match t with
  | FSNode.dir [(n, FSNode.dir cs)] => collapseWithPath (FSNode.dir cs) (p ++ [n])
  | d => (d, p)
termination_by FSNode.ht t
decreasing_by
  simp [FSNode.ht, FSNode.htL]

/-- `Extractor.UNIX_DIRS`. -/
def UNIX_DIRS : List String :=
  ["bin", "etc", "dev", "home", "lib", "mnt", "opt", "root",
   "run", "sbin", "tmp", "usr", "var"]

/-- `Extractor.UNIX_THRESHOLD`. -/
def UNIX_THRESHOLD : Nat := 4

/-- The counting loop of `io_find_rootfs`: how many immediate children are
directories named after a canonical UNIX directory. -/
def countUnix (cs : List (String × FSNode)) : Nat :=
  (cs.filter (fun e => decide (e.1 ∈ UNIX_DIRS) && e.2.isDir)).length

/-- `io_find_rootfs(start, recurse=False)`: collapse, then report the
collapsed directory iff it passes the UNIX threshold, else
`(False, start)`.  (The recursive call sites of the source always pass
`recurse=False`, so this is the exact behaviour they invoke.) -/
def findRootfsOnce (start : FSNode) (startPath : List String) : Bool × List String :=
  let c := collapseWithPath start startPath
  if UNIX_THRESHOLD ≤ countUnix c.1.childrenOf then (true, c.2) else (false, startPath)

/-- The `for subdir in os.listdir(path)` recursion loop of `io_find_rootfs`:
try each immediate subdirectory with `recurse=False` and return the first
result whose found flag is set. -/
def findSubHit (cp : List String) : List (String × FSNode) → Option (Bool × List String)
  | [] => none
  | (n, c) :: rest =>
    if c.isDir then
      match findRootfsOnce c (cp ++ [n]) with
      | (true, rp) => some (true, rp)
      | _ => findSubHit cp rest
    else findSubHit cp rest

/-- `Extractor.io_find_rootfs`: collapse single-child chains, accept the
collapsed directory when it holds at least `UNIX_THRESHOLD` canonical UNIX
subdirectories, otherwise (with `recurse`) try each immediate subdirectory
once, and fall back to `(False, start)`. -/
def io_find_rootfs (start : FSNode) (startPath : List String) (recurse : Bool) :
    Bool × List String :=
  let c := collapseWithPath start startPath
  if UNIX_THRESHOLD ≤ countUnix c.1.childrenOf then (true, c.2)
  else if recurse then
    match findSubHit c.2 c.1.childrenOf with
    | some r => r
    | none => (false, startPath)
  else (false, startPath)

/-! ### The firmware-header stage (`ExtractionItem._check_firmware`)

Artifacts come from the scanner with a byte offset and a free-form
description.  The uImage branch carves `offset + 64` for the parsed
`image size:`; the TP-Link/TRX branch parses four hex fields, derives the
sizes when both lengths are zero (guarded by the source's
`kernel_offset != rootfs_size` test), sanity-checks both ranges, and carves
kernel and rootfs as children at the same depth with the same tag.
Description parsing can raise `ValueError` (the `Except Unit` error), which
the cascade's exception handler would catch. -/

/-- A `DetectedFile` as far as this stage reads it. -/
structure Artifact where
  offset : Int
  description : String
deriving DecidableEq, Repr

/-- The uImage size scan of `_check_firmware`: for each comma fragment
containing `"image size:"`, re-assign `kernel_size` to the decimal value of
the fragment's digit characters (initially 0). -/
def parse_image_size (desc : String) : Except Unit Nat :=
  (splitOnChar ',' desc.toList).foldlM
    (fun acc stmt =>
      if isInfixChars "image size:".toList stmt then parseDecDigits stmt
      else Except.ok acc)
    0

/-- The four parsed TRX/TP-Link header fields, all initially 0. -/
structure TrxFields where
  kernel_offset : Int
  kernel_size : Int
  rootfs_offset : Int
  rootfs_size : Int
deriving DecidableEq, Repr

/-- Python `int(stmt.split(':')[1], 16)`: missing colon raises `IndexError`,
a malformed number raises `ValueError`. -/
def parseHexField (stmt : List Char) : Except Unit Int :=
  match (splitOnChar ':' stmt).get? 1 with
  | none => Except.error ()
  | some s =>
    match parseHexInt s with
    | none => Except.error ()
    | some n => Except.ok n

/-- The field scan of the TRX branch: comma fragments assign
`kernel offset:` / `kernel length:` / `rootfs offset:` / `rootfs length:`
in that `elif` order. -/
def parse_trx_fields (desc : String) : Except Unit TrxFields :=
  (splitOnChar ',' desc.toList).foldlM
    (fun f stmt =>
      if isInfixChars "kernel offset:".toList stmt then
        (parseHexField stmt).map (fun n => { f with kernel_offset := n })
      else if isInfixChars "kernel length:".toList stmt then
        (parseHexField stmt).map (fun n => { f with kernel_size := n })
      else if isInfixChars "rootfs offset:".toList stmt then
        (parseHexField stmt).map (fun n => { f with rootfs_offset := n })
      else if isInfixChars "rootfs length:".toList stmt then
        (parseHexField stmt).map (fun n => { f with rootfs_size := n })
      else Except.ok f)
    ⟨0, 0, 0, 0⟩

/-- Carving action of `_check_firmware` on one artifact: a uImage kernel
carve (child at the same depth with the parent tag, whose `extract()` result
the stage returns), or a TRX kernel+rootfs carve (two children at the same
depth with the same tag; the stage returns `update_status()`). -/
inductive FwAction where
  | uimageCarve (koff ksize : Int) (depth : Nat) (tag : String)
  | trxCarve (koff ksize roff rsize : Int) (depth : Nat) (tag : String)
deriving DecidableEq, Repr

/-- The loop body of `_check_firmware` for one artifact. `none` means the
loop continues with the next artifact. -/
def check_firmware_entry (kst rst : Bool) (depth : Nat) (tag : String)
    (fileSize : Int) (a : Artifact) : Except Unit (Option FwAction) :=
  if strContains a.description "uImage header" then
    if !kst && strContains a.description "OS Kernel Image" then
      match parse_image_size a.description with
      | Except.error e => Except.error e
      | Except.ok n =>
        if n ≠ 0 ∧ a.offset + 64 + (n : Int) ≤ fileSize then
          Except.ok (some (FwAction.uimageCarve (a.offset + 64) (n : Int) depth tag))
        else Except.ok none
    else Except.ok none
  else if !kst && !rst && strContains a.description "rootfs offset: " &&
          strContains a.description "kernel offset: " then
    match parse_trx_fields a.description with
    | Except.error e => Except.error e
    | Except.ok f0 =>
      let f :=
        if f0.kernel_offset ≠ f0.rootfs_size ∧ f0.kernel_size = 0 ∧ f0.rootfs_size = 0 then
          { f0 with kernel_size := f0.rootfs_offset - f0.kernel_offset,
                    rootfs_size := fileSize - f0.rootfs_offset }
        else f0
      if 0 < f.kernel_size ∧ f.kernel_offset + f.kernel_size ≤ fileSize ∧
         f.rootfs_size ≠ 0 ∧ f.rootfs_offset + f.rootfs_size ≤ fileSize then
        Except.ok (some (FwAction.trxCarve f.kernel_offset f.kernel_size
          f.rootfs_offset f.rootfs_size depth tag))
      else Except.ok none
  else Except.ok none

/-- `_check_firmware` over the artifact list: the first artifact that takes
an action decides; otherwise the stage returns False (`none`). -/
def check_firmware (kst rst : Bool) (depth : Nat) (tag : String) (fileSize : Int) :
    List Artifact → Except Unit (Option FwAction)
  | [] => Except.ok none
  | a :: rest =>
    match check_firmware_entry kst rst depth tag fileSize a with
    | Except.error e => Except.error e
    | Except.ok (some act) => Except.ok (some act)
    | Except.ok none => check_firmware kst rst depth tag fileSize rest

/-- What the stage returns for an action: a uImage carve returns the child's
`extract()` result (`childExtract` oracle, applied to the carve offset,
size, depth and tag); a TRX carve returns the result of `update_status()`
after both children ran (`updated`). -/
def fw_return (childExtract : Int → Int → Nat → String → ExtractResult)
    (updated : ExtractResult) : Option FwAction → Option ExtractResult
  | some (FwAction.uimageCarve koff ksize depth tag) =>
    some (childExtract koff ksize depth tag)
  | some (FwAction.trxCarve _ _ _ _ _ _) => some updated
  | none => none

/-! ### The kernel stage (`ExtractionItem._check_kernel`)

The artifact loop has an unconditional `return False` at the end of its
body, so only the first artifact is ever examined. -/

/-- Observable outcome of `_check_kernel`: the stage's return value, the
`shutil.copy` performed (source file, destination), the kernel version
recorded to the database, and the `do_kernel` flag afterwards. -/
structure KernelStageOut where
  ret : Bool
  copied : Option (String × String)
  dbRecord : Option String
  doKernelAfter : Bool
deriving DecidableEq, Repr

/-- `ExtractionItem._check_kernel`: when the kernel flag is not yet set,
examine the first artifact only; on a Linux version hit copy the whole
current file to `output + ".kernel"`, or clear the global `do_kernel` flag
when no output is configured. -/
def check_kernel (kst doK : Bool) (item : String) (output : Option String)
    (arts : List Artifact) : KernelStageOut :=
  if kst then ⟨false, none, none, doK⟩
  else
    match arts with
    | [] => ⟨false, none, none, doK⟩
    | a :: _ =>
      if strContains a.description "kernel version" ||
         strContains a.description "Linux version" then
        if strContains a.description "Linux" then
          match output with
          | some o => ⟨true, some (item, o ++ ".kernel"), some a.description, doK⟩
          | none => ⟨true, none, some a.description, false⟩
        else ⟨false, none, some a.description, doK⟩
      else ⟨false, none, none, doK⟩

/-! ### Exception propagation (`extract` and the serial driver)

In the source, the `try` block of `extract` starts only after the blacklist
probe and `tempfile.mkdtemp()`; its handler catches any `Exception` from the
analysis cascade, prints the traceback, and falls through to the final
`return` with `status: False`.  The serial branch of `Extractor.extract`
appends each item's result with no handler of its own, so an exception that
escapes one item aborts the remaining inputs. -/

/-- Cascade behaviour for the exception model: either an exception (message)
or a completion flag (did some stage complete the item) together with the
status flags the item holds afterwards. -/
def CascadeExc : Type := Except String (Bool × Bool × Bool)

/-- `ExtractionItem.extract`, exception model: the blacklist probe and the
temp-directory creation sit before the `try` block, so their exceptions
propagate; an exception inside the cascade is caught and surfaced as the
final `status: False` record. -/
def extract_exc (it : ExtractionItem) (visited : List String)
    (blacklist : Except String Bool) (mkTemp : Except String Unit)
    (cascade : CascadeExc) : Except String (ExtractResult × List String) :=
  if get_status it then Except.ok (mkResult it true, visited)
  else if RECURSION_DEPTH < it.depth then
    Except.ok (mkResult it (get_status it), visited)
  else if it.checksum ∈ visited then
    Except.ok (mkResult it (get_status it), visited)
  else
    let v' := it.checksum :: visited
    match blacklist with
    | Except.error e => Except.error e
    | Except.ok true => Except.ok (mkResult it (get_status it), v')
    | Except.ok false =>
      match mkTemp with
      | Except.error e => Except.error e
      | Except.ok _ =>
        match cascade with
        | Except.error _ => Except.ok (mkResult it false, v')
        | Except.ok (completed, flags) =>
          if completed then
            Except.ok (⟨true, it.tag, flags.1, flags.2,
              get_kernel_path it, get_rootfs_path it⟩, v')
          else
            Except.ok (⟨false, it.tag, flags.1, flags.2,
              get_kernel_path it, get_rootfs_path it⟩, v')

/-- One top-level input of the serial driver, with its oracles. -/
structure DriverItem where
  item : ExtractionItem
  blacklist : Except String Bool
  mkTemp : Except String Unit
  cascade : CascadeExc

/-- The serial branch of `Extractor.extract`: run the items in order,
collecting results; an exception escaping one item aborts the loop (no
handler in the driver). -/
def driver_serial : List DriverItem → List String → Except String (List ExtractResult)
  | [], _ => Except.ok []
  | x :: rest, v =>
    match extract_exc x.item v x.blacklist x.mkTemp x.cascade with
    | Except.error e => Except.error e
    | Except.ok (r, v') =>
      match driver_serial rest v' with
      | Except.error e => Except.error e
      | Except.ok rs => Except.ok (r :: rs)

/-! ## Theorems -/

/-! ### Helper lemmas for the `_check_recursive` walk -/

/-- Spawn-count bound of the walk loop, generalised over the counter. -/
theorem visitFiles_length_le (depth : Nat) (tag : String)
    (childOk updSt : String → Bool) :
    ∀ (files : List String) (count : Nat),
      (visitFiles depth tag childOk updSt files count).spawned.length ≤
        (RECURSION_BREADTH + 1) - count
  | [], count => by simp [visitFiles]
  | f :: rest, count => by
    have ih := visitFiles_length_le depth tag childOk updSt rest (count + 1)
    by_cases hc : RECURSION_BREADTH < count
    · simp [visitFiles, hc]
    · by_cases hchild : childOk f && updSt f
      · simp only [visitFiles, if_neg hc, if_pos hchild, List.length_singleton]
        simp only [RECURSION_BREADTH] at hc ⊢
        omega
      · simp only [visitFiles, if_neg hc, if_neg hchild, List.length_cons]
        simp only [RECURSION_BREADTH] at hc ih ⊢
        omega

/-- When the walk loop terminates early on the breadth cap, it has spawned
exactly the cap's worth of children past the initial counter value. -/
theorem visitFiles_terminate_length (depth : Nat) (tag : String)
    (childOk updSt : String → Bool) :
    ∀ (files : List String) (count : Nat), count ≤ RECURSION_BREADTH + 1 →
      (visitFiles depth tag childOk updSt files count).terminate = true →
      (visitFiles depth tag childOk updSt files count).spawned.length =
        (RECURSION_BREADTH + 1) - count
  | [], count => by simp [visitFiles]
  | f :: rest, count => by
    intro hcount hterm
    have ih := visitFiles_terminate_length depth tag childOk updSt rest (count + 1)
    by_cases hc : RECURSION_BREADTH < count
    · simp only [visitFiles, if_pos hc, List.length_nil]
      simp only [RECURSION_BREADTH] at hc hcount ⊢
      omega
    · by_cases hchild : childOk f && updSt f
      · simp only [visitFiles, if_neg hc, if_pos hchild] at hterm
        exact absurd hterm (by decide)
      · simp only [visitFiles, if_neg hc, if_neg hchild] at hterm ⊢
        simp only [List.length_cons]
        have hcount' : count + 1 ≤ RECURSION_BREADTH + 1 := by
          simp only [RECURSION_BREADTH] at hc ⊢
          omega
        have := ih hcount' hterm
        simp only [RECURSION_BREADTH] at hc this ⊢
        omega

/-- The walk loop returns True whenever it sets the `terminate` flag. -/
theorem visitFiles_terminate_ret (depth : Nat) (tag : String)
    (childOk updSt : String → Bool) :
    ∀ (files : List String) (count : Nat),
      (visitFiles depth tag childOk updSt files count).terminate = true →
      (visitFiles depth tag childOk updSt files count).ret = some true
  | [], count => by simp [visitFiles]
  | f :: rest, count => by
    intro hterm
    have ih := visitFiles_terminate_ret depth tag childOk updSt rest (count + 1)
    by_cases hc : RECURSION_BREADTH < count
    · simp [visitFiles, hc]
    · by_cases hchild : childOk f && updSt f
      · simp only [visitFiles, if_neg hc, if_pos hchild] at hterm
        exact absurd hterm (by decide)
      · simp only [visitFiles, if_neg hc, if_neg hchild] at hterm ⊢
        exact ih hterm

/-- Every spawned child sits at `depth + 1` and carries the parent tag. -/
theorem visitFiles_spawn_shape (depth : Nat) (tag : String)
    (childOk updSt : String → Bool) :
    ∀ (files : List String) (count : Nat),
      ∀ c ∈ (visitFiles depth tag childOk updSt files count).spawned,
        c.depth = depth + 1 ∧ c.tag = tag
  | [], count => by simp [visitFiles]
  | f :: rest, count => by
    intro c hc
    have ih := visitFiles_spawn_shape depth tag childOk updSt rest (count + 1)
    by_cases hcap : RECURSION_BREADTH < count
    · simp [visitFiles, hcap] at hc
    · by_cases hchild : childOk f && updSt f
      · simp only [visitFiles, if_neg hcap, if_pos hchild,
          List.mem_singleton] at hc
        subst hc
        exact ⟨rfl, rfl⟩
      · simp only [visitFiles, if_neg hcap, if_neg hchild,
          List.mem_cons] at hc
        rcases hc with hc | hc
        · subst hc
          exact ⟨rfl, rfl⟩
        · exact ih c hc

/-- C1 (counterexample): a directory walk holding seven files, none of which
completes the item, spawns six child items — not five — before the breadth
cap fires, refuting the claimed bound of `RECURSION_BREADTH = 5` visited
files with termination on the 6th. -/
theorem check_recursive_breadth_counterexample :
    (visitFiles 0 "tag" (fun _ => false) (fun _ => false)
      ["f1", "f2", "f3", "f4", "f5", "f6", "f7"] 0).spawned.length = 6 ∧
    (visitFiles 0 "tag" (fun _ => false) (fun _ => false)
      ["f1", "f2", "f3", "f4", "f5", "f6", "f7"] 0).terminate = true ∧
    ¬ (visitFiles 0 "tag" (fun _ => false) (fun _ => false)
        ["f1", "f2", "f3", "f4", "f5", "f6", "f7"] 0).spawned.length ≤
        RECURSION_BREADTH := by
  refine ⟨by decide, by decide, by decide⟩

/-- C1 (amended): in any single traversal of an extraction output directory
at most `RECURSION_BREADTH + 1 = 6` files are visited and become child
`ExtractionItem`s, each at `depth + 1` with the parent tag; when the breadth
cap fires (on reaching the 7th file) exactly six children were spawned, the
item's `terminate` flag is set, and the sub-procedure returns True without
spawning further children. -/
theorem check_recursive_breadth (depth : Nat) (tag : String)
    (childOk updSt : String → Bool) (files : List String) :
    (visitFiles depth tag childOk updSt files 0).spawned.length ≤
      RECURSION_BREADTH + 1
    ∧ ((visitFiles depth tag childOk updSt files 0).terminate = true →
        (visitFiles depth tag childOk updSt files 0).spawned.length =
          RECURSION_BREADTH + 1 ∧
        (visitFiles depth tag childOk updSt files 0).ret = some true)
    ∧ (∀ c ∈ (visitFiles depth tag childOk updSt files 0).spawned,
        c.depth = depth + 1 ∧ c.tag = tag) := by
  refine ⟨?_, fun hterm => ⟨?_, ?_⟩, ?_⟩
  · simpa using visitFiles_length_le depth tag childOk updSt files 0
  · simpa using visitFiles_terminate_length depth tag childOk updSt files 0
      (by simp [RECURSION_BREADTH]) hterm
  · exact visitFiles_terminate_ret depth tag childOk updSt files 0 hterm
  · exact visitFiles_spawn_shape depth tag childOk updSt files 0

/-- Witness for the amended breadth bound at a concrete seven-file walk. -/
theorem check_recursive_breadth_witness :
    (visitFiles 0 "t" (fun _ => false) (fun _ => false)
      ["a", "b", "c", "d", "e", "f", "g"] 0).spawned.length =
      RECURSION_BREADTH + 1 ∧
    (visitFiles 0 "t" (fun _ => false) (fun _ => false)
      ["a", "b", "c", "d", "e", "f", "g"] 0).ret = some true :=
  (check_recursive_breadth 0 "t" (fun _ => false) (fun _ => false)
    ["a", "b", "c", "d", "e", "f", "g"]).2.1 (by decide)

/-- C3: an `ExtractionItem` with `depth > RECURSION_DEPTH = 3` is decided by
the depth guard of `extract`: it returns the item's current status, performs
no scanner work and never enters the cascade; an item at `depth ≤ 3` is
never decided by this guard. -/
theorem extract_depth_guard (it : ExtractionItem) (v : List String) (bl : Bool)
    (o : CascadeOracle) :
    (RECURSION_DEPTH < it.depth →
       (extract_run it v bl o).result = mkResult it (get_status it) ∧
       (extract_run it v bl o).outcome ≠ GuardOutcome.cascade ∧
       (extract_run it v bl o).scans = 0 ∧
       (extract_run it v bl o).visited = v)
    ∧ (it.depth ≤ RECURSION_DEPTH →
       (extract_run it v bl o).outcome ≠ GuardOutcome.depthExceeded) := by
  constructor
  · intro hd
    by_cases hg : get_status it
    · simp [extract_run, hg]
    · simp [extract_run, hg, hd]
  · intro hd
    have hd' : ¬ RECURSION_DEPTH < it.depth := by omega
    by_cases hg : get_status it
    · simp [extract_run, hg]
    · by_cases hv : it.checksum ∈ v
      · simp [extract_run, hg, hd', hv]
      · by_cases hbl : bl
        · simp [extract_run, hg, hd', hv, hbl]
        · simp [extract_run, hg, hd', hv, hbl]

/-- Witness for the depth guard at a concrete depth-4 item. -/
theorem extract_depth_guard_witness :
    (extract_run ⟨4, "m", "t", false, (false, false), none⟩ [] false
        (fun v => (⟨false, "t", false, false, none, none⟩, v, 1))).outcome ≠
      GuardOutcome.cascade ∧
    (extract_run ⟨4, "m", "t", false, (false, false), none⟩ [] false
        (fun v => (⟨false, "t", false, false, none, none⟩, v, 1))).scans = 0 :=
  ⟨((extract_depth_guard ⟨4, "m", "t", false, (false, false), none⟩ [] false
      (fun v => (⟨false, "t", false, false, none, none⟩, v, 1))).1
      (by decide)).2.1,
   ((extract_depth_guard ⟨4, "m", "t", false, (false, false), none⟩ [] false
      (fun v => (⟨false, "t", false, false, none, none⟩, v, 1))).1
      (by decide)).2.2.1⟩

/-- C10: with `terminate` set, `get_status` returns True regardless of the
two status flags, so the post-analysis completion check of `extract` builds
a success record; in particular an item whose walk hit the recursion-breadth
cap (which sets `terminate` and returns True) yields a result record with
`status: true` while `kernelDone` and `rootfsDone` may both be false. -/
theorem terminate_forces_success (it : ExtractionItem) (d : Nat) (t : String)
    (out : Option String) (childOk updSt : String → Bool) (files : List String)
    (count : Nat) (c : String) :
    (it.terminate = true → get_status it = true)
    ∧ (it.terminate = true → analysisReturn it = some (mkResult it true))
    ∧ (analysisReturn ⟨d, c, t, true, (false, false), out⟩ =
        some ⟨true, t, false, false, out.map (fun p => p ++ ".kernel"),
          out.map (fun p => p ++ ".tar.gz")⟩)
    ∧ ((visitFiles d t childOk updSt files count).terminate = true →
        (visitFiles d t childOk updSt files count).ret = some true) := by
  refine ⟨?_, ?_, ?_, ?_⟩
  · intro h
    simp [get_status, h]
  · intro h
    simp [analysisReturn, get_status, h]
  · simp [analysisReturn, get_status, mkResult, get_kernel_path, get_rootfs_path]
  · exact visitFiles_terminate_ret d t childOk updSt files count

/-- Witness: a terminated item with both flags false still reports success. -/
theorem terminate_forces_success_witness :
    get_status ⟨0, "m", "t", true, (false, false), none⟩ = true ∧
    analysisReturn ⟨0, "m", "t", true, (false, false), none⟩ =
      some ⟨true, "t", false, false, none, none⟩ :=
  ⟨(terminate_forces_success ⟨0, "m", "t", true, (false, false), none⟩ 0 "t" none
      (fun _ => false) (fun _ => false) [] 0 "m").1 rfl,
   (terminate_forces_success ⟨0, "m", "t", true, (false, false), none⟩ 0 "t" none
      (fun _ => false) (fun _ => false) [] 0 "m").2.2.1⟩

/-- C8: at initialization the status flags are set from the pre-existing
output files (`<tag>.kernel` / `<tag>.tar.gz`), and trivially set when the
corresponding extraction class is not requested; an item found complete this
way is decided by entry guard 1 of `extract` — a success record, zero
scanner invocations, no cascade — so a re-run over already-complete items
performs no scanner work. -/
theorem init_complete_skip (doK doR : Bool) (isfile : String → Bool) (d : Nat)
    (c t out : String) (v : List String) (bl : Bool) (o : CascadeOracle)
    (hk : doK = true → isfile (out ++ ".kernel") = true)
    (hr : doR = true → isfile (out ++ ".tar.gz") = true) :
    (initItem doK doR isfile d c t (some out)).status = (true, true)
    ∧ extract_run (initItem doK doR isfile d c t (some out)) v bl o =
        ⟨mkResult (initItem doK doR isfile d c t (some out)) true, v, 0,
          GuardOutcome.complete⟩ := by
  have hks : done_flag doK isfile (some (out ++ ".kernel")) = true := by
    cases doK with
    | false => simp [done_flag]
    | true => simp [done_flag, hk rfl]
  have hrs : done_flag doR isfile (some (out ++ ".tar.gz")) = true := by
    cases doR with
    | false => simp [done_flag]
    | true => simp [done_flag, hr rfl]
  have hst : (initItem doK doR isfile d c t (some out)).status = (true, true) := by
    have e1 : get_kernel_path (⟨d, c, t, false, (false, false), some out⟩ :
        ExtractionItem) = some (out ++ ".kernel") := rfl
    have e2 : get_rootfs_path (⟨d, c, t, false, (false, false), some out⟩ :
        ExtractionItem) = some (out ++ ".tar.gz") := rfl
    simp [initItem, update_status, e1, e2, hks, hrs]
  have hgs : get_status (initItem doK doR isfile d c t (some out)) = true := by
    have hterm : (initItem doK doR isfile d c t (some out)).terminate = false := rfl
    simp [get_status, hterm, hst]
  exact ⟨hst, by simp [extract_run, hgs]⟩

/-- Witness: with both output files on disk, the initialized item skips at
guard 1 with zero scans. -/
theorem init_complete_skip_witness :
    (initItem true true (fun _ => true) 0 "m" "t" (some "outdir/t")).status =
      (true, true) ∧
    extract_run (initItem true true (fun _ => true) 0 "m" "t" (some "outdir/t"))
        [] false (fun v => (⟨false, "t", false, false, none, none⟩, v, 1)) =
      ⟨mkResult (initItem true true (fun _ => true) 0 "m" "t" (some "outdir/t"))
        true, [], 0, GuardOutcome.complete⟩ :=
  init_complete_skip true true (fun _ => true) 0 "m" "t" "outdir/t" [] false
    (fun v => (⟨false, "t", false, false, none, none⟩, v, 1))
    (fun _ => rfl) (fun _ => rfl)

/-! ### Helper lemmas for deduplication -/

/-- One `extract` call never removes a checksum from the visited set. -/
theorem extract_run_mem_visited (it : ExtractionItem) (v : List String)
    (bl : Bool) (o : CascadeOracle) (ho : CascadeMono o) (cs : String)
    (h : cs ∈ v) : cs ∈ (extract_run it v bl o).visited := by
  by_cases hg : get_status it
  · simpa [extract_run, hg] using h
  · by_cases hd : RECURSION_DEPTH < it.depth
    · simpa [extract_run, hg, hd] using h
    · by_cases hv : it.checksum ∈ v
      · simpa [extract_run, hg, hd, hv] using h
      · by_cases hbl : bl
        · simp [extract_run, hg, hd, hv, hbl]
          exact Or.inr h
        · simp only [extract_run, if_neg hg, if_neg hd, if_neg hv, if_neg hbl]
          exact ho (it.checksum :: v) cs (List.mem_cons_of_mem _ h)

/-- A run never removes a checksum from the visited set. -/
theorem runAll_mem_visited (l : List ScheduledItem) (v : List String)
    (cs : String) (hm : ∀ s ∈ l, CascadeMono s.cascade) (h : cs ∈ v) :
    cs ∈ (runAll l v).2 := by
  induction l generalizing v with
  | nil => simpa [runAll] using h
  | cons s rest ih =>
    simp only [runAll]
    exact ih _ (fun x hx => hm x (List.mem_cons_of_mem _ hx))
      (extract_run_mem_visited s.item v s.blacklisted s.cascade
        (hm s (List.mem_cons_self _ _)) cs h)

/-- When the cascade runs, the item's checksum is in the visited set
afterwards (it was inserted before the cascade started). -/
theorem extract_run_cascade_inserts (it : ExtractionItem) (v : List String)
    (bl : Bool) (o : CascadeOracle) (ho : CascadeMono o)
    (h : (extract_run it v bl o).outcome = GuardOutcome.cascade) :
    it.checksum ∈ (extract_run it v bl o).visited := by
  by_cases hg : get_status it
  · simp [extract_run, hg] at h
  · by_cases hd : RECURSION_DEPTH < it.depth
    · simp [extract_run, hg, hd] at h
    · by_cases hv : it.checksum ∈ v
      · simp [extract_run, hg, hd, hv] at h
      · by_cases hbl : bl
        · simp [extract_run, hg, hd, hv, hbl] at h
        · simp only [extract_run, if_neg hg, if_neg hd, if_neg hv, if_neg hbl]
          exact ho (it.checksum :: v) it.checksum (List.mem_cons_self _ _)

/-- A checksum already in the visited set blocks the cascade. -/
theorem extract_run_mem_blocks (it : ExtractionItem) (v : List String)
    (bl : Bool) (o : CascadeOracle) (h : it.checksum ∈ v) :
    (extract_run it v bl o).outcome ≠ GuardOutcome.cascade := by
  by_cases hg : get_status it
  · simp [extract_run, hg]
  · by_cases hd : RECURSION_DEPTH < it.depth
    · simp [extract_run, hg, hd]
    · simp [extract_run, hg, hd, h]

/-- C2: an item whose checksum is already in the shared visited set is
decided before the cascade, returning its current status with the visited
set untouched and no scanner work; when the cascade does run, it runs on the
visited set with the checksum freshly inserted; consequently, in any
serialised run, of two scheduled items with equal MD5 checksums at most one
executes its cascade. -/
theorem extract_dedup (it : ExtractionItem) (v : List String) (bl : Bool)
    (o : CascadeOracle) (l₁ l₂ : List ScheduledItem) (a b : ScheduledItem)
    (v₀ : List String)
    (hma : CascadeMono a.cascade)
    (hm₂ : ∀ s ∈ l₂, CascadeMono s.cascade)
    (hsum : a.item.checksum = b.item.checksum) :
    (it.checksum ∈ v →
        (extract_run it v bl o).outcome ≠ GuardOutcome.cascade ∧
        (extract_run it v bl o).result = mkResult it (get_status it) ∧
        (extract_run it v bl o).visited = v ∧
        (extract_run it v bl o).scans = 0)
    ∧ ((extract_run it v bl o).outcome = GuardOutcome.cascade →
        extract_run it v bl o =
          ⟨(o (it.checksum :: v)).1, (o (it.checksum :: v)).2.1,
            (o (it.checksum :: v)).2.2, GuardOutcome.cascade⟩)
    ∧ ¬ ((extract_run a.item ((runAll l₁ v₀).2) a.blacklisted a.cascade).outcome
            = GuardOutcome.cascade ∧
         (extract_run b.item
              ((runAll l₂ (extract_run a.item ((runAll l₁ v₀).2) a.blacklisted
                  a.cascade).visited).2)
              b.blacklisted b.cascade).outcome = GuardOutcome.cascade) := by
  refine ⟨?_, ?_, ?_⟩
  · intro hmem
    by_cases hg : get_status it
    · simp [extract_run, hg]
    · by_cases hd : RECURSION_DEPTH < it.depth
      · simp [extract_run, hg, hd]
      · simp [extract_run, hg, hd, hmem]
  · intro hc
    by_cases hg : get_status it
    · simp [extract_run, hg] at hc
    · by_cases hd : RECURSION_DEPTH < it.depth
      · simp [extract_run, hg, hd] at hc
      · by_cases hv : it.checksum ∈ v
        · simp [extract_run, hg, hd, hv] at hc
        · by_cases hbl : bl
          · simp [extract_run, hg, hd, hv, hbl] at hc
          · simp [extract_run, hg, hd, hv, hbl]
  · rintro ⟨ha, hb⟩
    have h₁ : a.item.checksum ∈
        (extract_run a.item ((runAll l₁ v₀).2) a.blacklisted a.cascade).visited :=
      extract_run_cascade_inserts _ _ _ _ hma ha
    have h₂ : a.item.checksum ∈
        (runAll l₂ (extract_run a.item ((runAll l₁ v₀).2) a.blacklisted
          a.cascade).visited).2 :=
      runAll_mem_visited _ _ _ hm₂ h₁
    rw [hsum] at h₂
    exact extract_run_mem_blocks _ _ _ _ h₂ hb

/-- Witness: the second of two equal-checksum items skips via the visited
set with no scanner work. -/
theorem extract_dedup_witness :
    (extract_run ⟨0, "m", "t", false, (false, false), none⟩ ["m"] false
        (fun v => (⟨false, "t", false, false, none, none⟩, v, 1))).outcome ≠
      GuardOutcome.cascade ∧
    (extract_run ⟨0, "m", "t", false, (false, false), none⟩ ["m"] false
        (fun v => (⟨false, "t", false, false, none, none⟩, v, 1))).scans = 0 :=
  ⟨((extract_dedup ⟨0, "m", "t", false, (false, false), none⟩ ["m"] false
      (fun v => (⟨false, "t", false, false, none, none⟩, v, 1)) [] []
      ⟨⟨0, "m", "t", false, (false, false), none⟩, false,
        fun v => (⟨false, "t", false, false, none, none⟩, v, 1)⟩
      ⟨⟨0, "m", "t", false, (false, false), none⟩, false,
        fun v => (⟨false, "t", false, false, none, none⟩, v, 1)⟩ []
      (fun _ _ h => h) (fun s hs => by cases hs) rfl).1
      (by simp)).1,
   ((extract_dedup ⟨0, "m", "t", false, (false, false), none⟩ ["m"] false
      (fun v => (⟨false, "t", false, false, none, none⟩, v, 1)) [] []
      ⟨⟨0, "m", "t", false, (false, false), none⟩, false,
        fun v => (⟨false, "t", false, false, none, none⟩, v, 1)⟩
      ⟨⟨0, "m", "t", false, (false, false), none⟩, false,
        fun v => (⟨false, "t", false, false, none, none⟩, v, 1)⟩ []
      (fun _ _ h => h) (fun s hs => by cases hs) rfl).1
      (by simp)).2.2.2⟩

/-! ### Helper lemmas for exception propagation -/

/-- When the blacklist probe and the temp-directory creation succeed,
`extract` returns normally whatever the cascade does (its exceptions are
caught). -/
theorem extract_exc_total (it : ExtractionItem) (v : List String) (b : Bool)
    (casc : CascadeExc) :
    ∃ p, extract_exc it v (Except.ok b) (Except.ok ()) casc = Except.ok p := by
  simp only [extract_exc]
  by_cases hg : get_status it
  · simp only [if_pos hg]
    exact ⟨_, rfl⟩
  · simp only [if_neg hg]
    by_cases hd : RECURSION_DEPTH < it.depth
    · simp only [if_pos hd]
      exact ⟨_, rfl⟩
    · simp only [if_neg hd]
      by_cases hv : it.checksum ∈ v
      · simp only [if_pos hv]
        exact ⟨_, rfl⟩
      · simp only [if_neg hv]
        cases b with
        | true => exact ⟨_, rfl⟩
        | false =>
          cases casc with
          | error e => exact ⟨_, rfl⟩
          | ok out =>
            obtain ⟨completed, flags⟩ := out
            cases completed with
            | true => exact ⟨_, rfl⟩
            | false => exact ⟨_, rfl⟩

/-- When no item's pre-cascade oracles raise, the serial driver returns one
result per input, whatever the cascades do. -/
theorem driver_serial_total (items : List DriverItem) (v : List String)
    (hok : ∀ y ∈ items,
      (∃ b, y.blacklist = Except.ok b) ∧ y.mkTemp = Except.ok ()) :
    ∃ rs, driver_serial items v = Except.ok rs ∧ rs.length = items.length := by
  induction items generalizing v with
  | nil => exact ⟨[], rfl, rfl⟩
  | cons x rest ih =>
    obtain ⟨⟨b, hb⟩, hm⟩ := hok x (List.mem_cons_self _ _)
    obtain ⟨p, hp⟩ := extract_exc_total x.item v b x.cascade
    obtain ⟨r1, v1⟩ := p
    have hstep : extract_exc x.item v x.blacklist x.mkTemp x.cascade =
        Except.ok (r1, v1) := by
      rw [hb, hm]
      exact hp
    obtain ⟨rs, hrs, hlen⟩ := ih v1 (fun y hy => hok y (List.mem_cons_of_mem _ hy))
    exact ⟨r1 :: rs, by simp [driver_serial, hstep, hrs], by simp [hlen]⟩

/-- C9 (counterexample): an OSError raised by `tempfile.mkdtemp()` — inside
the item during extraction, but before the `try` block of `extract` — is not
caught and not surfaced as a `status: false` record; it propagates and
aborts the serial driver, so the second input produces no result at all. -/
theorem extract_exception_counterexample :
    extract_exc ⟨0, "m1", "t1", false, (false, false), none⟩ []
        (Except.ok false) (Except.error "OSError")
        (Except.ok (false, (false, false))) =
      Except.error "OSError"
    ∧ driver_serial
        [⟨⟨0, "m1", "t1", false, (false, false), none⟩, Except.ok false,
          Except.error "OSError", Except.ok (false, (false, false))⟩,
         ⟨⟨0, "m2", "t2", false, (false, false), none⟩, Except.ok false,
          Except.ok (), Except.ok (false, (false, false))⟩] [] =
      Except.error "OSError" :=
  ⟨rfl, rfl⟩

/-- C9 (amended): an exception raised inside the analysis cascade — the part
of `extract` guarded by its `try` block — is caught and surfaced as a result
record with `status: false`, and when no item's pre-cascade steps (blacklist
probe, temp-directory creation) raise, the serial driver aggregates exactly
one result per input, so a cascade failure in one input does not affect the
others; exceptions raised before the `try` block propagate instead (see the
counterexample). -/
theorem extract_exception_policy (it : ExtractionItem) (v : List String)
    (e : String) (items : List DriverItem) (v₀ : List String)
    (hg : get_status it = false) (hd : it.depth ≤ RECURSION_DEPTH)
    (hv : it.checksum ∉ v)
    (hok : ∀ y ∈ items,
      (∃ b, y.blacklist = Except.ok b) ∧ y.mkTemp = Except.ok ()) :
    extract_exc it v (Except.ok false) (Except.ok ()) (Except.error e) =
      Except.ok (mkResult it false, it.checksum :: v)
    ∧ ∃ rs, driver_serial items v₀ = Except.ok rs ∧ rs.length = items.length := by
  constructor
  · have hd' : ¬ RECURSION_DEPTH < it.depth := by omega
    simp [extract_exc, hg, hd', hv]
  · exact driver_serial_total items v₀ hok

/-- Witness: a concrete cascade exception is caught and surfaced as a
`status: false` record. -/
theorem extract_exception_policy_witness :
    extract_exc ⟨0, "mw", "tw", false, (false, false), none⟩ []
        (Except.ok false) (Except.ok ()) (Except.error "boom") =
      Except.ok (mkResult ⟨0, "mw", "tw", false, (false, false), none⟩ false,
        ["mw"]) :=
  (extract_exception_policy ⟨0, "mw", "tw", false, (false, false), none⟩ []
    "boom" [] [] rfl (by decide) (by simp) (fun y hy => by cases hy)).1

/-- C7: when the kernel flag is unset, `_check_kernel` examines only the
first scanner artifact (its answer does not depend on the rest); on a
description carrying a kernel/Linux version string that mentions "Linux",
the entire current file is copied to `output + ".kernel"` and the stage
returns True; a non-Linux version returns False; with no output path
configured the global `do_kernel` flag is cleared (and the stage still
returns True). -/
theorem check_kernel_first_artifact (doK : Bool) (item : String)
    (output : Option String) (o : String) (a : Artifact)
    (rest rest' : List Artifact) :
    (check_kernel false doK item output (a :: rest) =
       check_kernel false doK item output (a :: rest'))
    ∧ (strContains a.description "kernel version" = true ∨
         strContains a.description "Linux version" = true →
       strContains a.description "Linux" = true →
       check_kernel false doK item (some o) (a :: rest) =
         ⟨true, some (item, o ++ ".kernel"), some a.description, doK⟩)
    ∧ (strContains a.description "kernel version" = true ∨
         strContains a.description "Linux version" = true →
       strContains a.description "Linux" = false →
       (check_kernel false doK item output (a :: rest)).ret = false)
    ∧ (strContains a.description "kernel version" = true ∨
         strContains a.description "Linux version" = true →
       strContains a.description "Linux" = true →
       check_kernel false doK item none (a :: rest) =
         ⟨true, none, some a.description, false⟩) := by
  refine ⟨?_, ?_, ?_, ?_⟩
  · simp only [check_kernel]
  · intro hver hlin
    rcases hver with hver | hver
    · simp [check_kernel, hver, hlin]
    · simp [check_kernel, hver, hlin]
  · intro hver hlin
    rcases hver with hver | hver
    · simp [check_kernel, hver, hlin]
    · simp [check_kernel, hver, hlin]
  · intro hver hlin
    rcases hver with hver | hver
    · simp [check_kernel, hver, hlin]
    · simp [check_kernel, hver, hlin]

/-- Witness: a concrete Linux kernel version description copies the whole
file and returns True regardless of the artifacts after the first. -/
theorem check_kernel_first_artifact_witness :
    check_kernel false true "fw.bin" (some "out/t")
        [⟨0, "Linux kernel version 4.4.0"⟩, ⟨9, "whatever"⟩] =
      ⟨true, some ("fw.bin", "out/t" ++ ".kernel"),
        some "Linux kernel version 4.4.0", true⟩ :=
  (check_kernel_first_artifact true "fw.bin" (some "out/t") "out/t"
    ⟨0, "Linux kernel version 4.4.0"⟩ [⟨9, "whatever"⟩] []).2.1
    (Or.inl (by decide)) (by decide)

/-! ### Helper lemmas for rootfs detection -/

/-- `findRootfsOnce` reports success exactly when the collapsed directory
meets the UNIX threshold. -/
theorem findRootfsOnce_fst (c : FSNode) (p : List String) :
    (findRootfsOnce c p).1 = true ↔
      UNIX_THRESHOLD ≤ countUnix (collapseWithPath c p).1.childrenOf := by
  unfold findRootfsOnce
  by_cases h : UNIX_THRESHOLD ≤ countUnix (collapseWithPath c p).1.childrenOf
  · simp [h]
  · simp [h]

/-- Any hit returned by the recursion loop has its found flag set. -/
theorem findSubHit_found (cp : List String) :
    ∀ (cs : List (String × FSNode)) (r : Bool × List String),
      findSubHit cp cs = some r → r.1 = true
  | [], r => by simp [findSubHit]
  | (n, c) :: rest, r => by
    intro h
    by_cases hd : c.isDir
    · simp only [findSubHit, if_pos hd] at h
      rcases hfr : findRootfsOnce c (cp ++ [n]) with ⟨found, rp⟩
      rw [hfr] at h
      cases found with
      | true =>
        simp only [Option.some.injEq] at h
        rw [← h]
      | false => exact findSubHit_found cp rest r h
    · simp only [findSubHit, if_neg hd] at h
      exact findSubHit_found cp rest r h

/-- The recursion loop finds a hit exactly when some immediate subdirectory
passes the once-collapsed threshold test. -/
theorem findSubHit_iff (cp : List String) :
    ∀ cs : List (String × FSNode),
      (findSubHit cp cs).isSome = true ↔
      ∃ n c, (n, c) ∈ cs ∧ c.isDir = true ∧
        (findRootfsOnce c (cp ++ [n])).1 = true
  | [] => by simp [findSubHit]
  | (n, c) :: rest => by
    have ih := findSubHit_iff cp rest
    by_cases hd : c.isDir
    · rcases hfr : findRootfsOnce c (cp ++ [n]) with ⟨found, rp⟩
      cases found with
      | true =>
        simp only [findSubHit, if_pos hd, hfr]
        constructor
        · intro _
          exact ⟨n, c, List.mem_cons_self _ _, hd, by rw [hfr]⟩
        · intro _
          rfl
      | false =>
        simp only [findSubHit, if_pos hd, hfr]
        constructor
        · intro h
          rcases ih.mp h with ⟨n', c', hmem, hd', hfind⟩
          exact ⟨n', c', List.mem_cons_of_mem _ hmem, hd', hfind⟩
        · rintro ⟨n', c', hmem, hd', hfind⟩
          rcases List.mem_cons.mp hmem with heq | hmem'
          · rw [Prod.mk.injEq] at heq
            rcases heq with ⟨hn, hc⟩
            subst hn
            subst hc
            rw [hfr] at hfind
            simp at hfind
          · exact ih.mpr ⟨n', c', hmem', hd', hfind⟩
    · simp only [findSubHit, if_neg hd]
      constructor
      · intro h
        rcases ih.mp h with ⟨n', c', hmem, hd', hfind⟩
        exact ⟨n', c', List.mem_cons_of_mem _ hmem, hd', hfind⟩
      · rintro ⟨n', c', hmem, hd', hfind⟩
        rcases List.mem_cons.mp hmem with heq | hmem'
        · rw [Prod.mk.injEq] at heq
          rcases heq with ⟨hn, hc⟩
          subst hn
          subst hc
          exact absurd hd' hd
        · exact ih.mpr ⟨n', c', hmem', hd', hfind⟩

/-- C4: `io_find_rootfs` first collapses single-child directory chains and
succeeds on the collapsed directory iff it has at least
`UNIX_THRESHOLD = 4` immediate subdirectories with canonical UNIX names;
with `recurse` it otherwise tries each immediate subdirectory once (the
first hit wins, via `findSubHit`); a miss returns `(False, start)`; and
with `recurse = False` the outcome is decided by the collapsed directory
alone. -/
theorem io_find_rootfs_correct (start : FSNode) (p : List String) :
    ((io_find_rootfs start p true).1 = true ↔
       (UNIX_THRESHOLD ≤ countUnix (collapseWithPath start p).1.childrenOf ∨
        ∃ n c, (n, c) ∈ (collapseWithPath start p).1.childrenOf ∧
          c.isDir = true ∧
          UNIX_THRESHOLD ≤ countUnix
            (collapseWithPath c ((collapseWithPath start p).2 ++ [n])).1.childrenOf))
    ∧ (UNIX_THRESHOLD ≤ countUnix (collapseWithPath start p).1.childrenOf →
        io_find_rootfs start p true = (true, (collapseWithPath start p).2))
    ∧ ((io_find_rootfs start p true).1 = false →
        io_find_rootfs start p true = (false, p))
    ∧ (io_find_rootfs start p false =
        if UNIX_THRESHOLD ≤ countUnix (collapseWithPath start p).1.childrenOf
        then (true, (collapseWithPath start p).2) else (false, p)) := by
  have hex : (∃ n c, (n, c) ∈ (collapseWithPath start p).1.childrenOf ∧
        c.isDir = true ∧
        UNIX_THRESHOLD ≤ countUnix
          (collapseWithPath c ((collapseWithPath start p).2 ++ [n])).1.childrenOf) ↔
      (findSubHit (collapseWithPath start p).2
        (collapseWithPath start p).1.childrenOf).isSome = true := by
    rw [findSubHit_iff]
    constructor
    · rintro ⟨n, c, hm, hd, hth'⟩
      exact ⟨n, c, hm, hd, (findRootfsOnce_fst c _).mpr hth'⟩
    · rintro ⟨n, c, hm, hd, hf⟩
      exact ⟨n, c, hm, hd, (findRootfsOnce_fst c _).mp hf⟩
  by_cases hth : UNIX_THRESHOLD ≤ countUnix (collapseWithPath start p).1.childrenOf
  · refine ⟨?_, fun _ => ?_, ?_, ?_⟩
    · simp [io_find_rootfs, hth]
    · simp [io_find_rootfs, hth]
    · intro hfalse
      simp [io_find_rootfs, hth] at hfalse
    · simp [io_find_rootfs, hth]
  · rcases hfs : findSubHit (collapseWithPath start p).2
        (collapseWithPath start p).1.childrenOf with _ | r
    · refine ⟨?_, fun h => absurd h hth, ?_, ?_⟩
      · simp only [io_find_rootfs, if_neg hth, if_pos rfl, hfs]
        rw [hex, hfs]
        simp [hth]
      · intro _
        simp [io_find_rootfs, hth, hfs]
      · simp [io_find_rootfs, hth]
    · have hr := findSubHit_found (collapseWithPath start p).2
        (collapseWithPath start p).1.childrenOf r hfs
      refine ⟨?_, fun h => absurd h hth, ?_, ?_⟩
      · simp only [io_find_rootfs, if_neg hth, if_pos rfl, hfs]
        rw [hex, hfs]
        simp [hth, hr]
      · intro hfalse
        simp only [io_find_rootfs, if_neg hth, if_pos rfl, hfs] at hfalse
        simp [hr] at hfalse
      · simp [io_find_rootfs, hth]

/-- Witness: a single-child chain over a directory holding `bin`, `etc`,
`usr`, `var` is recognised at the collapsed path. -/
theorem io_find_rootfs_correct_witness :
    io_find_rootfs
        (FSNode.dir [("squashfs-root",
          FSNode.dir [("bin", FSNode.dir []), ("etc", FSNode.dir []),
            ("usr", FSNode.dir []), ("var", FSNode.dir [])])]) [] true =
      (true, ["squashfs-root"]) := by
  have hc : collapseWithPath
      (FSNode.dir [("squashfs-root",
        FSNode.dir [("bin", FSNode.dir []), ("etc", FSNode.dir []),
          ("usr", FSNode.dir []), ("var", FSNode.dir [])])]) [] =
      (FSNode.dir [("bin", FSNode.dir []), ("etc", FSNode.dir []),
        ("usr", FSNode.dir []), ("var", FSNode.dir [])], ["squashfs-root"]) := by
    simp [collapseWithPath]
  have h := (io_find_rootfs_correct
      (FSNode.dir [("squashfs-root",
        FSNode.dir [("bin", FSNode.dir []), ("etc", FSNode.dir []),
          ("usr", FSNode.dir []), ("var", FSNode.dir [])])]) []).2.1
  rw [hc] at h
  exact h (by decide)

/-- C6: for a TP-Link/TRX artifact (description carrying the kernel/rootfs
offset fragments, not a uImage header) whose parsed lengths are zero while
both parsed offsets are nonzero, `_check_firmware` derives
`kernel_size = rootfs_offset - kernel_offset` and
`rootfs_size = file_size - rootfs_offset`, checks both ranges against the
file size, and on pass carves kernel and rootfs as two children at the same
depth with the same tag, the stage returning the updated status. -/
theorem check_firmware_trx (depth : Nat) (tag : String) (fileSize off : Int)
    (desc : String) (koff roff : Int)
    (hU : strContains desc "uImage header" = false)
    (hk : strContains desc "kernel offset: " = true)
    (hr : strContains desc "rootfs offset: " = true)
    (hparse : parse_trx_fields desc = Except.ok ⟨koff, 0, roff, 0⟩)
    (hko : koff ≠ 0) (_hro : roff ≠ 0) :
    check_firmware_entry false false depth tag fileSize ⟨off, desc⟩ =
      Except.ok
        (if 0 < roff - koff ∧ koff + (roff - koff) ≤ fileSize ∧
            fileSize - roff ≠ 0 ∧ roff + (fileSize - roff) ≤ fileSize
         then some (FwAction.trxCarve koff (roff - koff) roff (fileSize - roff)
           depth tag)
         else none)
    ∧ (∀ ce upd, fw_return ce upd
        (some (FwAction.trxCarve koff (roff - koff) roff (fileSize - roff)
          depth tag)) = some upd) := by
  constructor
  · simp only [check_firmware_entry, hU, hk, hr, hparse, Bool.false_eq_true,
      if_false, Bool.not_false, Bool.and_self, Bool.true_and, if_true]
    have hcond : koff ≠ 0 ∧ True ∧ True := ⟨hko, trivial, trivial⟩
    simp only [if_pos hcond]
    exact (apply_ite Except.ok
      (0 < roff - koff ∧ koff + (roff - koff) ≤ fileSize ∧
        fileSize - roff ≠ 0 ∧ roff + (fileSize - roff) ≤ fileSize)
      (some (FwAction.trxCarve koff (roff - koff) roff (fileSize - roff)
        depth tag)) none).symm
  · intro ce upd
    rfl

/-- Witness: a concrete TRX-style description with zero lengths derives both
sizes and carves kernel and rootfs ranges. -/
theorem check_firmware_trx_witness :
    check_firmware_entry false false 0 "t" 4096
        ⟨0, "TP-Link firmware header, kernel offset: 0x200, kernel length: 0x0, rootfs offset: 0x400, rootfs length: 0x0"⟩ =
      Except.ok (some (FwAction.trxCarve 512 512 1024 3072 0 "t")) := by
  have h := (check_firmware_trx 0 "t" 4096 0
      "TP-Link firmware header, kernel offset: 0x200, kernel length: 0x0, rootfs offset: 0x400, rootfs length: 0x0"
      512 1024 rfl rfl rfl rfl (by decide) (by decide)).1
  rw [h]
  rfl

/-! ### Helper lemmas for the uImage size parse -/

/-- A list is a Boolean prefix of itself followed by anything. -/
theorem isPrefixChars_self_append :
    ∀ (xs ys : List Char), isPrefixChars xs (xs ++ ys) = true
  | [], _ => rfl
  | x :: xs, ys => by
    simp only [List.cons_append, isPrefixChars, beq_self_eq_true, Bool.true_and]
    exact isPrefixChars_self_append xs ys

/-- A Boolean prefix is a Boolean substring. -/
theorem isInfixChars_of_prefixChars (pat s : List Char)
    (h : isPrefixChars pat s = true) : isInfixChars pat s = true := by
  cases s with
  | nil => exact h
  | cons a rest => simp [isInfixChars, h]

/-- Substring containment survives prepending. -/
theorem isInfixChars_append_left :
    ∀ (pre pat s : List Char), isInfixChars pat s = true →
      isInfixChars pat (pre ++ s) = true
  | [], _, _, h => h
  | a :: pre, pat, s, h => by
    have ih := isInfixChars_append_left pre pat s h
    show (isPrefixChars pat ((a :: pre) ++ s) || isInfixChars pat (pre ++ s)) =
      true
    rw [ih]
    simp

/-- A key occurs as a substring of any string that embeds it. -/
theorem isInfixChars_middle (pre key post : List Char) :
    isInfixChars key (pre ++ (key ++ post)) = true :=
  isInfixChars_append_left pre key (key ++ post)
    (isInfixChars_of_prefixChars _ _ (isPrefixChars_self_append key post))

/-- Fragments without the `image size:` key leave the accumulator alone. -/
theorem image_size_fold_skip :
    ∀ (l : List (List Char)) (init : Nat),
      (∀ s ∈ l, isInfixChars "image size:".toList s = false) →
      l.foldlM
        (fun acc stmt =>
          if isInfixChars "image size:".toList stmt then parseDecDigits stmt
          else Except.ok acc) init = Except.ok init
  | [], _, _ => rfl
  | s :: rest, init, h => by
    have hs := h s (List.mem_cons_self _ _)
    simp only [List.foldlM_cons, hs, Bool.false_eq_true, if_false]
    exact image_size_fold_skip rest init
      (fun x hx => h x (List.mem_cons_of_mem _ hx))

/-- With exactly one fragment carrying the key, the fold computes that
fragment's digit parse. -/
theorem image_size_fold_found :
    ∀ (l₁ : List (List Char)) (frag : List Char) (l₂ : List (List Char))
      (init : Nat),
      (∀ s ∈ l₁, isInfixChars "image size:".toList s = false) →
      (∀ s ∈ l₂, isInfixChars "image size:".toList s = false) →
      isInfixChars "image size:".toList frag = true →
      (l₁ ++ frag :: l₂).foldlM
        (fun acc stmt =>
          if isInfixChars "image size:".toList stmt then parseDecDigits stmt
          else Except.ok acc) init = parseDecDigits frag
  | [], frag, l₂, init, _, h₂, hf => by
    simp only [List.nil_append, List.foldlM_cons, hf, if_true]
    rcases hp : parseDecDigits frag with e | n
    · rfl
    · exact image_size_fold_skip l₂ n h₂
  | s :: rest, frag, l₂, init, h₁, h₂, hf => by
    have hs := h₁ s (List.mem_cons_self _ _)
    simp only [List.cons_append, List.foldlM_cons, hs, Bool.false_eq_true,
      if_false]
    exact image_size_fold_found rest frag l₂ init
      (fun x hx => h₁ x (List.mem_cons_of_mem _ hx)) h₂ hf

/-- When the description has a single `image size:` fragment of the shape
`pre ++ "image size:" ++ post` with no digits before the key, the parsed
kernel size is the decimal value of the digit characters after the key. -/
theorem parse_image_size_eq (desc : String) (l₁ l₂ : List (List Char))
    (pre post : List Char)
    (hsplit : splitOnChar ',' desc.toList =
      l₁ ++ (pre ++ "image size:".toList ++ post) :: l₂)
    (h₁ : ∀ s ∈ l₁, isInfixChars "image size:".toList s = false)
    (h₂ : ∀ s ∈ l₂, isInfixChars "image size:".toList s = false)
    (hpre : digitsOf pre = [])
    (hpost : digitsOf post ≠ []) :
    parse_image_size desc = Except.ok (decValue (digitsOf post)) := by
  unfold parse_image_size
  rw [hsplit]
  rw [List.append_assoc pre "image size:".toList post]
  rw [image_size_fold_found l₁ _ l₂ 0 h₁ h₂
    (isInfixChars_middle pre _ post)]
  have hdig : digitsOf (pre ++ ("image size:".toList ++ post)) =
      digitsOf post := by
    have hkey : digitsOf "image size:".toList = [] := by decide
    simp only [digitsOf, List.filter_append] at hpre hkey ⊢
    rw [hpre, hkey]
    simp
  unfold parseDecDigits
  rw [hdig]
  rcases hdp : digitsOf post with _ | ⟨d, ds⟩
  · exact absurd hdp hpost
  · rfl

/-- C5: for a uImage OS Kernel Image artifact (kernel flag unset, and the
description's single `image size:` fragment carrying its digits after the
key), `_check_firmware` parses `kernel_size` as those decimal digits, sets
`kernel_offset = artifact.offset + 64`, carves exactly when the size is
nonzero and `kernel_offset + kernel_size ≤ file_size`, makes the carved file
a child at the same depth with the parent tag, and returns that child's
`extract()` result. -/
theorem check_firmware_uimage (rst : Bool) (depth : Nat) (tag : String)
    (fileSize off : Int) (desc : String) (l₁ l₂ : List (List Char))
    (pre post : List Char)
    (hU : strContains desc "uImage header" = true)
    (hOS : strContains desc "OS Kernel Image" = true)
    (hsplit : splitOnChar ',' desc.toList =
      l₁ ++ (pre ++ "image size:".toList ++ post) :: l₂)
    (h₁ : ∀ s ∈ l₁, isInfixChars "image size:".toList s = false)
    (h₂ : ∀ s ∈ l₂, isInfixChars "image size:".toList s = false)
    (hpre : digitsOf pre = [])
    (hpost : digitsOf post ≠ []) :
    parse_image_size desc = Except.ok (decValue (digitsOf post))
    ∧ check_firmware_entry false rst depth tag fileSize ⟨off, desc⟩ =
        Except.ok
          (if decValue (digitsOf post) ≠ 0 ∧
              off + 64 + (decValue (digitsOf post) : Int) ≤ fileSize
           then some (FwAction.uimageCarve (off + 64)
             (decValue (digitsOf post)) depth tag)
           else none)
    ∧ (∀ ce upd, fw_return ce upd (some (FwAction.uimageCarve (off + 64)
        (decValue (digitsOf post)) depth tag)) =
        some (ce (off + 64) (decValue (digitsOf post)) depth tag)) := by
  have hp := parse_image_size_eq desc l₁ l₂ pre post hsplit h₁ h₂ hpre hpost
  refine ⟨hp, ?_, fun ce upd => rfl⟩
  simp only [check_firmware_entry, hU, hOS, hp, Bool.not_false, Bool.true_and,
    if_true]
  exact (apply_ite Except.ok
    (decValue (digitsOf post) ≠ 0 ∧
      off + 64 + (decValue (digitsOf post) : Int) ≤ fileSize)
    (some (FwAction.uimageCarve (off + 64) (decValue (digitsOf post))
      depth tag)) none).symm

/-- Witness: a concrete uImage kernel description is carved at offset 64
with the declared image size of 128 bytes. -/
theorem check_firmware_uimage_witness :
    check_firmware_entry false false 0 "t" 1000
        ⟨0, "uImage header, header size: 64 bytes, image size: 128 bytes, OS Kernel Image"⟩ =
      Except.ok (some (FwAction.uimageCarve 64 128 0 "t")) := by
  have h := (check_firmware_uimage false 0 "t" 1000 0
      "uImage header, header size: 64 bytes, image size: 128 bytes, OS Kernel Image"
      ["uImage header".toList, " header size: 64 bytes".toList]
      [" OS Kernel Image".toList] " ".toList " 128 bytes".toList
      rfl rfl rfl (by decide) (by decide) rfl (by decide)).2.1
  rw [h]
  rfl
